import Mathlib

/-!
# Verification of the cashly DSL evaluator and lexer

A shallow embedding of the cashly repository (src/dsl/ast.rs, src/dsl/token.rs,
src/dsl/lexer.rs, src/evaluator/engine.rs, src/evaluator/output.rs) together
with proofs about its claims.

Modelling conventions:
* Rust `f64` values are modelled as exact rationals (`ℚ`).  Every claim proved
  here concerns the algebraic accumulation structure of the evaluator, which is
  computed by the same sequence of additions in either representation.
* Rust `String` is Lean `String`; `str::cmp` (byte order on UTF-8) agrees with
  the lexicographic code-point order of Lean strings.
* `HashMap<String, V>` is modelled as an insertion-ordered association list
  `List (String × V)`: `lookupA` is lookup, `insertA` replaces the binding of an
  existing key in place or appends a fresh one.  Lookup behaviour coincides with
  the Rust map; iteration order is modelled as insertion order.
* `Result<T, E>` is `Except E T`.  Fallible scanners work on the remaining
  input as a `List Char` and return the token together with the rest of the
  input; source positions carried by `LexError` are not tracked (no claim
  concerns them), the field is kept with value `0`.
-/

set_option autoImplicit false

namespace Cashly

/-! # Definitions -/

/-! ## AST data model (src/dsl/ast.rs) -/

/-- `Sign` from ast.rs. -/
inductive Sign where
  | positive
  | negative
deriving DecidableEq, Repr

/-- `SignedAmount`: a sign plus a magnitude (`value`), ast.rs. -/
structure SignedAmount where
  sign : Sign
  value : ℚ
deriving DecidableEq, Repr

/-- `SignedAmount::to_f64`. -/
def SignedAmount.to_f64 (sa : SignedAmount) : ℚ :=
  match sa.sign with
  | Sign.positive => sa.value
  | Sign.negative => -sa.value

/-- `Symbol { namespace, name }` from ast.rs (`namespace` is a Lean keyword,
so the field is called `ns`). -/
structure Symbol where
  ns : String
  name : String
deriving DecidableEq, Repr

/-- `impl Display for Symbol`: the canonical textual form `ns:name`
(`Symbol::to_string` in Rust). -/
def Symbol.display (s : Symbol) : String :=
  s.ns ++ ":" ++ s.name

/-- `TradeDetails` from ast.rs. -/
structure TradeDetails where
  symbol : Symbol
  signed_amount : SignedAmount
  unit : String
  price : Option ℚ
deriving DecidableEq, Repr

/-- `TradeDetails::buy`. -/
def TradeDetails.buy (t : TradeDetails) : Bool :=
  t.signed_amount.sign = Sign.positive

/-- `TradeDetails::sell`. -/
def TradeDetails.sell (t : TradeDetails) : Bool :=
  t.signed_amount.sign = Sign.negative

/-- `MarkDetails` from ast.rs. -/
structure MarkDetails where
  symbol : Symbol
  value : ℚ
  unit : String
deriving DecidableEq, Repr

/-- `Details` from ast.rs. -/
inductive Details where
  | trade (t : TradeDetails)
  | mark (m : MarkDetails)
deriving DecidableEq, Repr

/-- `Details::get_symbol`. -/
def Details.get_symbol : Details → Symbol
  | Details.trade t => t.symbol
  | Details.mark m => m.symbol

/-- `Action` from ast.rs. -/
inductive Action where
  | trade
  | mark
deriving DecidableEq, Repr

/-- `Record` from ast.rs. -/
structure Record where
  date : String
  action : Action
  details : Details
  note : Option String
deriving DecidableEq, Repr

/-- The display string of a record's symbol (used as the key of every
engine-side map). -/
def Record.symStr (r : Record) : String :=
  r.details.get_symbol.display

/-- `Frequency` from ast.rs. -/
inductive Frequency where
  | daily
  | weekly
  | monthly
  | quarterly
  | yearly
deriving DecidableEq, Repr

/-- `Schedule` from ast.rs. -/
structure Schedule where
  frequency : Frequency
  amount : ℚ
  unit : String
  target : Symbol
deriving DecidableEq, Repr

/-- `PlanRule` from ast.rs. -/
inductive PlanRule where
  | schedule (s : Schedule)
  | startDate (d : String)
  | endDate (d : String)
deriving DecidableEq, Repr

/-- `Plan` statement from ast.rs. -/
structure PlanStatement where
  name : String
  rules : List PlanRule
deriving DecidableEq, Repr

/-- `Define` from ast.rs (`alias` is a Lean keyword, so the field is called
`aliasName`). -/
structure Define where
  symbol : Symbol
  aliasName : Option String
  target_return : Option ℚ
deriving DecidableEq, Repr

/-- `Portfolio` statement from ast.rs. -/
structure PortfolioStatement where
  name : String
  assets : List Symbol
  target_return : Option ℚ
deriving DecidableEq, Repr

/-- `Statement` from ast.rs. -/
inductive Statement where
  | record (r : Record)
  | plan (p : PlanStatement)
  | define (d : Define)
  | portfolio (p : PortfolioStatement)
deriving DecidableEq, Repr

/-- `Program` from ast.rs. -/
structure Program where
  statements : List Statement
deriving DecidableEq, Repr

/-! ## Association-list model of `HashMap<String, V>` -/

/-- Lookup of the first binding of a key. -/
def lookupA {α : Type} : List (String × α) → String → Option α
  | [], _ => none
  | (k, v) :: rest, key => if k = key then some v else lookupA rest key

/-- Insertion: replace the binding of an existing key in place, otherwise
append a fresh binding (models `HashMap::insert` / `entry().or_insert`). -/
def insertA {α : Type} : List (String × α) → String → α → List (String × α)
  | [], key, v => [(key, v)]
  | (k, w) :: rest, key, v =>
      if k = key then (k, v) :: rest else (k, w) :: insertA rest key v

/-! ## Evaluator data model (src/evaluator/engine.rs, output.rs) -/

/-- `Asset` from engine.rs: the registry entry for a symbol (`alias` is a Lean
keyword, so the field is called `aliasName`). -/
structure Asset where
  symbol : String
  aliasName : Option String
  target_return : Option ℚ
deriving DecidableEq, Repr

/-- `Asset::new`. -/
def Asset.new (symbol : String) (aliasName : Option String) (target_return : Option ℚ) : Asset :=
  { symbol := symbol, aliasName := aliasName, target_return := target_return }

/-- Materialized `Portfolio` from engine.rs. -/
structure Portfolio where
  name : String
  assets : List Asset
  target_return : ℚ
deriving DecidableEq, Repr

/-- Engine-side `Plan` from engine.rs (only a name; never populated). -/
structure Plan where
  name : String
deriving DecidableEq, Repr

/-- `RecordOutput` from output.rs. -/
structure RecordOutput where
  program : Record
  total_purchase : ℚ
  total_sale : ℚ
  value : ℚ
  profit : ℚ
deriving DecidableEq, Repr

/-- `Snapshot` from engine.rs. -/
structure Snapshot where
  symbol : String
  date : String
  statement : Record
  total_purchase : ℚ
  total_sale : ℚ
  value : ℚ
  profit : ℚ
deriving DecidableEq, Repr

/-- `Snapshot::from_output`. -/
def Snapshot.from_output (o : RecordOutput) : Snapshot :=
  { symbol := o.program.details.get_symbol.display
    date := o.program.date
    statement := o.program
    total_purchase := o.total_purchase
    total_sale := o.total_sale
    value := o.value
    profit := o.profit }

/-- `DailySnapshot` from engine.rs. -/
structure DailySnapshot where
  symbol : String
  date : String
  snapshots : List Snapshot
deriving DecidableEq, Repr

/-- `DailySnapshot::new`. -/
def DailySnapshot.new (symbol date : String) (snapshots : List Snapshot) : DailySnapshot :=
  { symbol := symbol, date := date, snapshots := snapshots }

/-- `AnalysisReport` from engine.rs; the `daily_snapshot` hash map is an
insertion-ordered association list. -/
structure AnalysisReport where
  assets : List Asset
  portfolios : List Portfolio
  daily_snapshot : List (String × List DailySnapshot)
deriving DecidableEq, Repr

/-- `EngineError` from engine.rs: carries no information. -/
structure EngineError where
deriving DecidableEq, Repr

/-- `AssetMetric` from engine.rs. -/
structure AssetMetric where
  total_purchase : ℚ
  total_sale : ℚ
  value : ℚ
deriving DecidableEq, Repr

/-- `AssetMetric::new_zero`. -/
def AssetMetric.new_zero : AssetMetric :=
  { total_purchase := 0, total_sale := 0, value := 0 }

/-- `AssetMetric::from_record`. -/
def AssetMetric.from_record (o : RecordOutput) : AssetMetric :=
  { total_purchase := o.total_purchase, total_sale := o.total_sale, value := o.value }

/-- `AssetMetric::get_profit`. -/
def AssetMetric.get_profit (m : AssetMetric) : ℚ :=
  m.value - m.total_purchase + m.total_sale

/-- `RecordOutput::from_record_with_metric`. -/
def RecordOutput.from_record_with_metric (r : Record) (m : AssetMetric) : RecordOutput :=
  { program := r
    total_purchase := m.total_purchase
    total_sale := m.total_sale
    value := m.value
    profit := m.get_profit }

/-- `EngineState` from engine.rs. -/
structure EngineState where
  portfolios : List Portfolio
  plans : List Plan
  assets : List (String × Asset)
  record_outputs : List RecordOutput
  snapshots : List (String × RecordOutput)
deriving DecidableEq, Repr

/-- `EngineState::new` (also the state built by `Engine::new`). -/
def EngineState.new : EngineState :=
  { portfolios := [], plans := [], assets := [], record_outputs := [], snapshots := [] }

/-- `UpsertAssetArgs` from engine.rs. -/
structure UpsertAssetArgs where
  symbol : String
  name : Option String
  target_return : Option ℚ
deriving DecidableEq, Repr

/-- `DefineOutput` from output.rs. -/
structure DefineOutput where
deriving DecidableEq, Repr

/-- `Output` from output.rs. -/
inductive Output where
  | record (o : RecordOutput)
  | define (o : DefineOutput)
deriving DecidableEq, Repr

/-! ## Evaluator operations (src/evaluator/engine.rs) -/

/-- `EngineState::update_portfolio_assets`: replace, in every materialized
portfolio, each member asset with the same symbol by the given asset. -/
def EngineState.update_portfolio_assets (st : EngineState) (asset : Asset) : EngineState :=
  { st with
      portfolios := st.portfolios.map fun p =>
        { p with
            assets := p.assets.map fun a =>
              if a.symbol = asset.symbol then asset else a } }

/-- `EngineState::upsert_asset`: on an occupied entry overwrite the fields the
arguments supply, then propagate the updated asset into every materialized
portfolio; on a vacant entry insert a fresh asset (and nothing else). -/
def EngineState.upsert_asset (st : EngineState) (args : UpsertAssetArgs) : EngineState :=
  match lookupA st.assets args.symbol with
  | some asset0 =>
      let asset : Asset :=
        { asset0 with
            aliasName :=
              match args.name with
              | some n => some n
              | none => asset0.aliasName
            target_return :=
              match args.target_return with
              | some t => some t
              | none => asset0.target_return }
      let st1 := { st with assets := insertA st.assets args.symbol asset }
      st1.update_portfolio_assets asset
  | none =>
      { st with
          assets := insertA st.assets args.symbol
            (Asset.new args.symbol args.name args.target_return) }

/-- The (pure) body of `EngineState::calc_asset`.  The Rust function always
ends in `Ok`; the fallible wrapper is `calc_asset` below. -/
def EngineState.calcAssetCore (st : EngineState) (record : Record) : RecordOutput × EngineState :=
  let symbol := record.details.get_symbol.display
  let last :=
    match lookupA st.snapshots symbol with
    | none => AssetMetric.new_zero
    | some shot => AssetMetric.from_record shot
  let new_snapshot :=
    match record.details with
    | Details.trade trade =>
        let value := trade.signed_amount.value
        let base :=
          if trade.buy then
            { last with total_purchase := last.total_purchase + value }
          else
            { last with total_sale := last.total_sale + value }
        { base with value := last.value + trade.signed_amount.to_f64 }
    | Details.mark mark =>
        { value := mark.value
          total_purchase := last.total_purchase
          total_sale := last.total_sale }
  let output := RecordOutput.from_record_with_metric record new_snapshot
  (output,
    { st with
        record_outputs := st.record_outputs ++ [output]
        snapshots := insertA st.snapshots symbol output })

/-- `EngineState::calc_asset`. -/
def EngineState.calc_asset (st : EngineState) (record : Record) :
    Except EngineError (Output × EngineState) :=
  Except.ok (Output.record (st.calcAssetCore record).1, (st.calcAssetCore record).2)

/-- The (pure) body of `EngineState::update_portfolio`: materialize a
portfolio by resolving each listed symbol against the current registry
(placeholder asset for unknown symbols), defaulting the target return to 0. -/
def EngineState.updatePortfolioCore (st : EngineState) (statement : PortfolioStatement) :
    EngineState :=
  let portfolio : Portfolio :=
    { name := statement.name
      assets := statement.assets.map fun x =>
        let symbol := x.display
        match lookupA st.assets symbol with
        | some a => a
        | none => Asset.new symbol none none
      target_return := statement.target_return.getD 0 }
  { st with portfolios := st.portfolios ++ [portfolio] }

/-- `EngineState::update_portfolio`. -/
def EngineState.update_portfolio (st : EngineState) (statement : PortfolioStatement) :
    Except EngineError EngineState :=
  Except.ok (st.updatePortfolioCore statement)

/-- The (pure) body of `Engine::evaluate_define`. -/
def Engine.evaluateDefineCore (st : EngineState) (define : Define) : EngineState :=
  st.upsert_asset
    { symbol := define.symbol.display
      name := define.aliasName
      target_return := define.target_return }

/-- `Engine::evaluate_define`. -/
def Engine.evaluate_define (st : EngineState) (define : Define) :
    Except EngineError EngineState :=
  Except.ok (Engine.evaluateDefineCore st define)

/-- `Engine::evaluate_portfolio`. -/
def Engine.evaluate_portfolio (st : EngineState) (statement : PortfolioStatement) :
    Except EngineError EngineState :=
  st.update_portfolio statement

/-- The (pure) body of `Engine::evaluate_record`: upsert the asset registry
entry for the record's symbol, then compute the new metric. -/
def Engine.evaluateRecordCore (st : EngineState) (record : Record) :
    RecordOutput × EngineState :=
  (st.upsert_asset
      { symbol := record.details.get_symbol.display
        name := none
        target_return := none }).calcAssetCore record

/-- `Engine::evaluate_record`. -/
def Engine.evaluate_record (st : EngineState) (record : Record) :
    Except EngineError (Output × EngineState) :=
  (st.upsert_asset
      { symbol := record.details.get_symbol.display
        name := none
        target_return := none }).calc_asset record

/-- The statement loop of `Engine::evaluate`: apply Define and Portfolio
statements in program order, collect Record statements in order, and do
nothing for Plan statements. -/
def Engine.runStatements (st : EngineState) :
    List Statement → Except EngineError (EngineState × List Record)
  | [] => Except.ok (st, [])
  | Statement.record r :: rest =>
      (Engine.runStatements st rest).map fun p => (p.1, r :: p.2)
  | Statement.plan _ :: rest => Engine.runStatements st rest
  | Statement.define d :: rest =>
      (Engine.evaluate_define st d).bind fun st1 => Engine.runStatements st1 rest
  | Statement.portfolio p :: rest =>
      (Engine.evaluate_portfolio st p).bind fun st1 => Engine.runStatements st1 rest

/-- Pure form of the statement loop (it never fails). -/
def Engine.runStmts (st : EngineState) : List Statement → EngineState × List Record
  | [] => (st, [])
  | Statement.record r :: rest =>
      let p := Engine.runStmts st rest
      (p.1, r :: p.2)
  | Statement.plan _ :: rest => Engine.runStmts st rest
  | Statement.define d :: rest => Engine.runStmts (Engine.evaluateDefineCore st d) rest
  | Statement.portfolio p :: rest => Engine.runStmts (st.updatePortfolioCore p) rest

/-- Lexicographic comparison of char lists by code point.  `str::cmp` in Rust
compares the UTF-8 bytes of the two strings, and UTF-8 byte order coincides
with code-point order, so this is the comparison `a.date.cmp(&b.date)` of
`Engine::evaluate` performs. -/
def charListLe : List Char → List Char → Bool
  | [], _ => true
  | _ :: _, [] => false
  | a :: as, b :: bs =>
      if a.toNat < b.toNat then true
      else if b.toNat < a.toNat then false
      else charListLe as bs

/-- `a ≤ b` in the lexicographic string order used to sort records. -/
def strLe (a b : String) : Bool := charListLe a.data b.data

/-- Strict lexicographic string order. -/
def strLt (a b : String) : Prop := strLe a b = true ∧ a ≠ b

/-- Stable insertion of a record into a date-sorted list: the record is placed
in front of the first element whose date is ≥ its own.  `sortRecords` is thus
a stable sort by date.  `record_statements.sort_by(|a, b| a.date.cmp(&b.date))`
in `Engine::evaluate` is also a stable sort by the same comparator, and a
stable sort is determined uniquely by its comparator, so the two agree. -/
def insertByDate (r : Record) : List Record → List Record
  | [] => [r]
  | y :: ys => if strLe r.date y.date then r :: y :: ys else y :: insertByDate r ys

/-- The date sort of collected records in `Engine::evaluate`. -/
def sortRecords : List Record → List Record
  | [] => []
  | r :: rs => insertByDate r (sortRecords rs)

/-- The record-replay loop of `Engine::evaluate`
(`record_statements.iter().try_for_each(...)`). -/
def Engine.replayE (st : EngineState) : List Record → Except EngineError EngineState
  | [] => Except.ok st
  | r :: rs => (Engine.evaluate_record st r).bind fun p => Engine.replayE p.2 rs

/-- Pure form of the record-replay loop (it never fails). -/
def Engine.replay (st : EngineState) : List Record → EngineState
  | [] => st
  | r :: rs => Engine.replay (Engine.evaluateRecordCore st r).2 rs

/-- One step of the aggregation loop in `Engine::evaluate`: append the output
to the first daily snapshot carrying the output's date, or append a fresh
daily snapshot at the end of the list when no such group exists. -/
def addToDaily (o : RecordOutput) : List DailySnapshot → List DailySnapshot
  | [] =>
      [DailySnapshot.new o.program.details.get_symbol.display o.program.date
        [Snapshot.from_output o]]
  | g :: gs =>
      if g.date = o.program.date then
        { g with snapshots := g.snapshots ++ [Snapshot.from_output o] } :: gs
      else g :: addToDaily o gs

/-- One output of the aggregation loop: fetch (or create empty) the symbol's
group list, then file the output by date. -/
def aggStep (m : List (String × List DailySnapshot)) (o : RecordOutput) :
    List (String × List DailySnapshot) :=
  let symbol := o.program.details.get_symbol.display
  insertA m symbol (addToDaily o ((lookupA m symbol).getD []))

/-- The aggregation loop of `Engine::evaluate` over all record outputs. -/
def aggregate (outs : List RecordOutput) : List (String × List DailySnapshot) :=
  outs.foldl aggStep []

/-- The report-construction tail of `Engine::evaluate`. -/
def buildReport (st : EngineState) : AnalysisReport :=
  { assets := st.assets.map Prod.snd
    portfolios := st.portfolios
    daily_snapshot := aggregate st.record_outputs }

/-- `Engine::evaluate` run on a fresh engine (`Engine::new().evaluate(..)`). -/
def Engine.evaluate (program : Program) : Except EngineError AnalysisReport :=
  (Engine.runStatements EngineState.new program.statements).bind fun p =>
    (Engine.replayE p.1 (sortRecords p.2)).bind fun st =>
      Except.ok (buildReport st)

/-- Pure form of a whole evaluation. -/
def Engine.evaluateReport (program : Program) : AnalysisReport :=
  let p := Engine.runStmts EngineState.new program.statements
  buildReport (Engine.replay p.1 (sortRecords p.2))

/-! ## Latest-metric helpers -/

/-- The latest metric of a symbol: the engine's `snapshots` lookup with the
zero default of `EngineState::calc_asset` (step 3b of the replay). -/
def metricAt (st : EngineState) (s : String) : AssetMetric :=
  match lookupA st.snapshots s with
  | none => AssetMetric.new_zero
  | some shot => AssetMetric.from_record shot

/-- Does a statement carry a Plan? -/
def Statement.isPlan : Statement → Bool
  | Statement.plan _ => true
  | _ => false

/-! ## C1: concrete two-record scenario -/

/-- The symbol's final metric in a report: the last per-record snapshot of the
last daily snapshot of the symbol. -/
def finalSnapshot (rep : AnalysisReport) (s : String) : Option Snapshot :=
  ((lookupA rep.daily_snapshot s).getD []).getLast?.bind fun g => g.snapshots.getLast?

/-- `2024-01-01 TRADE ETF:510300 +5000 CNY @ 4.56`. -/
def c1Trade : Record :=
  { date := "2024-01-01", action := Action.trade
    details := Details.trade
      { symbol := { ns := "ETF", name := "510300" }
        signed_amount := { sign := Sign.positive, value := 5000 }
        unit := "CNY", price := some (456 / 100) }
    note := none }

/-- `2024-03-31 MARK ETF:510300 VALUE 7200 CNY`. -/
def c1Mark : Record :=
  { date := "2024-03-31", action := Action.mark
    details := Details.mark
      { symbol := { ns := "ETF", name := "510300" }, value := 7200, unit := "CNY" }
    note := none }

def c1Program : Program :=
  { statements := [Statement.record c1Trade, Statement.record c1Mark] }

/-! ## C3: Define after Portfolio -/

/-- A Portfolio listing ETF:510300 before anything created its registry
entry, then a Define supplying an alias and a target return. -/
def c3Program : Program :=
  { statements :=
      [Statement.portfolio
        { name := "P", assets := [{ ns := "ETF", name := "510300" }], target_return := none },
       Statement.define
        { symbol := { ns := "ETF", name := "510300" }
          aliasName := some "CSI 300 ETF", target_return := some (9 / 100) }] }

/-- A state holding a materialized portfolio for ETF:510300 and a registry
entry for the same symbol. -/
def c3State : EngineState :=
  { portfolios :=
      [{ name := "P"
         assets := [{ symbol := "ETF:510300", aliasName := none, target_return := none }]
         target_return := 0 }]
    plans := []
    assets :=
      [("ETF:510300", { symbol := "ETF:510300", aliasName := none, target_return := none })]
    record_outputs := []
    snapshots := [] }

/-! ## C5: pure-trade accumulation -/

/-- Is the amount a buy (positive sign)? -/
def SignedAmount.isBuy (sa : SignedAmount) : Bool :=
  match sa.sign with
  | Sign.positive => true
  | Sign.negative => false

/-- The signed amounts of the Trade records of symbol `s`, in order. -/
def tradeAmounts (rs : List Record) (s : String) : List SignedAmount :=
  rs.filterMap fun r =>
    match r.details with
    | Details.trade td => if r.symStr = s then some td.signed_amount else none
    | Details.mark _ => none

/-- Signed sum of a list of amounts. -/
def sumSigned (l : List SignedAmount) : ℚ := (l.map SignedAmount.to_f64).sum

/-- Sum of the magnitudes of the positive amounts. -/
def sumBuys (l : List SignedAmount) : ℚ :=
  ((l.filter SignedAmount.isBuy).map SignedAmount.value).sum

/-- Sum of the magnitudes of the negative amounts. -/
def sumSells (l : List SignedAmount) : ℚ :=
  ((l.filter fun sa => !sa.isBuy).map SignedAmount.value).sum

/-! ## Lexer (src/dsl/token.rs, src/dsl/lexer.rs)

The scanners are embedded as functions of the remaining input (a `List Char`)
returning the token and the rest of the input.  `LexError` positions are not
tracked (no claim concerns them); the field is kept with value 0. -/

/-- `LexError` from lexer.rs. -/
structure LexError where
  message : String
  position : Nat
deriving DecidableEq, Repr

/-- `Token` from token.rs (numbers as exact rationals; `end`, `return`, `at`
and `alias` are Lean keywords, so those constructors carry a `Kw`/`Sign`
suffix). -/
inductive Token where
  | date (s : String)
  | number (q : ℚ)
  | string (s : String)
  | identifier (s : String)
  | symbol (ns name : String)
  | comment (s : String)
  | plan
  | define
  | portfolio
  | endKw
  | trade
  | mark
  | schedule
  | start
  | endDate
  | aliasKw
  | target
  | returnKw
  | assets
  | into
  | value
  | note
  | daily
  | weekly
  | monthly
  | quarterly
  | yearly
  | plus
  | minus
  | atSign
  | colon
  | comma
  | leftParen
  | rightParen
  | leftBrace
  | rightBrace
  | newline
  | eof
  | invalid (s : String)
deriving DecidableEq, Repr

/-- `Token::from_keyword`: case-insensitive keyword lookup
(`to_uppercase` is modelled char-wise, which agrees with Rust on the ASCII
keyword table). -/
def Token.from_keyword (word : String) : Option Token :=
  match String.mk (word.data.map Char.toUpper) with
  | "PLAN" => some Token.plan
  | "DEFINE" => some Token.define
  | "PORTFOLIO" => some Token.portfolio
  | "END" => some Token.endKw
  | "TRADE" => some Token.trade
  | "MARK" => some Token.mark
  | "SCHEDULE" => some Token.schedule
  | "START" => some Token.start
  | "END_DATE" => some Token.endDate
  | "ALIAS" => some Token.aliasKw
  | "TARGET" => some Token.target
  | "RETURN" => some Token.returnKw
  | "ASSETS" => some Token.assets
  | "INTO" => some Token.into
  | "VALUE" => some Token.value
  | "NOTE" => some Token.note
  | "DAILY" => some Token.daily
  | "WEEKLY" => some Token.weekly
  | "MONTHLY" => some Token.monthly
  | "QUARTERLY" => some Token.quarterly
  | "YEARLY" => some Token.yearly
  | _ => none

/-- Does the head of the remaining input equal `c`?  (`self.peek() == c`;
at end of input Rust's `peek` returns `'\0'`, which the scanners only compare
against ordinary characters, so the empty case is `false`.) -/
def headIs (l : List Char) (c : Char) : Bool :=
  match l with
  | [] => false
  | x :: _ => x == c

/-- Does the head of the remaining input satisfy `p`?  (At end of input,
`false`, like `peek() == '\0'` failing every character-class test.) -/
def headSat (p : Char → Bool) (l : List Char) : Bool :=
  match l with
  | [] => false
  | x :: _ => p x

/-- The identifier characters of the lexer: `[A-Za-z0-9_]`. -/
def isIdentChar (c : Char) : Bool :=
  c.isUpper || c.isLower || c.isDigit || c == '_'

/-- Modelled from the Rust standard library: `str::parse::<f64>()` succeeds on
the strings this scanner can build (which start with a digit and contain only
digits, dashes and at most one dot) exactly when the string contains no dash
and at most one dot.  The general grammar also allows signs, exponents, `inf`
and `NaN`, none of which the scanner can produce. -/
def rustParseF64Ok (l : List Char) : Bool :=
  !l.isEmpty && l.all (fun c => c.isDigit || c == '.')
    && ((l.filter fun c => c == '.').length ≤ 1 : Bool)
    && l.any Char.isDigit

/-- Value of a digit string. -/
def digitsVal (l : List Char) : ℕ :=
  l.foldl (fun a c => 10 * a + (c.toNat - 48)) 0

/-- The exact rational value of a numeric literal `digits[.digits]`
(f64 values are modelled as exact rationals). -/
def numValue (l : List Char) : ℚ :=
  let intPart := l.takeWhile fun c => !(c == '.')
  let rest := l.dropWhile fun c => !(c == '.')
  match rest with
  | _ :: frac => (digitsVal intPart : ℚ) + (digitsVal frac : ℚ) / (10 ^ frac.length)
  | [] => (digitsVal intPart : ℚ)

/-- The number fall-through of `Lexer::scan_number_or_date`: optionally
consume `.digits`, then parse everything consumed so far as an f64;
a parse failure is the `Invalid number or date` LexError. -/
def numTail (consumed rest : List Char) : Except LexError (Token × List Char) :=
  let withFrac :=
    if headIs rest '.' then
      (consumed ++ '.' :: rest.tail.takeWhile Char.isDigit,
        rest.tail.dropWhile Char.isDigit)
    else (consumed, rest)
  if rustParseF64Ok withFrac.1 then
    Except.ok (Token.number (numValue withFrac.1), withFrac.2)
  else
    Except.error { message := "Invalid number or date", position := 0 }

/-- `Lexer::scan_number_or_date`, on the remaining input (the lexer
dispatches here when the next character is a digit). -/
def scan_number_or_date (input : List Char) : Except LexError (Token × List Char) :=
  let d1 := input.takeWhile Char.isDigit
  let r1 := input.dropWhile Char.isDigit
  if headIs r1 '-' = true ∧ d1.length = 4 then
    let r2 := r1.tail
    let d2 := r2.takeWhile Char.isDigit
    let r3 := r2.dropWhile Char.isDigit
    if d2.length = 2 ∧ headIs r3 '-' = true then
      let r4 := r3.tail
      let d3 := r4.takeWhile Char.isDigit
      let r5 := r4.dropWhile Char.isDigit
      if d3.length = 2 then
        Except.ok (Token.date ⟨d1 ++ '-' :: (d2 ++ '-' :: d3)⟩, r5)
      else
        numTail (d1 ++ '-' :: (d2 ++ '-' :: d3)) r5
    else
      numTail (d1 ++ '-' :: d2) r3
  else
    numTail d1 r1

/-- The symbol / plain-keyword tail of `Lexer::scan_identifier_or_keyword`
(everything after the compound-`END` check), with `word` the base word and
`r` the remaining input. -/
def symbolOrKeyword (word : String) (r : List Char) :
    Except LexError (Token × List Char) :=
  if headIs r ':' then
    let name := r.tail.takeWhile isIdentChar
    let r2 := r.tail.dropWhile isIdentChar
    if 0 < name.length then
      Except.ok (Token.symbol word ⟨name⟩, r2)
    else
      Except.error { message := "Expected identifier after colon", position := 0 }
  else
    match Token.from_keyword word with
    | some t => Except.ok (t, r)
    | none => Except.ok (Token.identifier word, r)

/-- `Lexer::scan_identifier_or_keyword`, on the remaining input (the lexer
dispatches here when the next character is a letter or underscore). -/
def scan_identifier_or_keyword (input : List Char) :
    Except LexError (Token × List Char) :=
  let w := input.takeWhile isIdentChar
  let r1 := input.dropWhile isIdentChar
  let word : String := ⟨w⟩
  if word = "END" ∧ headIs r1 '_' = true then
    let w2 := r1.tail.takeWhile isIdentChar
    let r2 := r1.tail.dropWhile isIdentChar
    match Token.from_keyword ⟨w ++ '_' :: w2⟩ with
    | some t => Except.ok (t, r2)
    | none => symbolOrKeyword word r2
  else
    symbolOrKeyword word r1

/-! ## C2: chronological grouping of daily snapshots -/

/-- The concatenation of the per-day snapshot lists of a symbol's daily
snapshots. -/
def joinSnaps (ds : List DailySnapshot) : List Snapshot :=
  (ds.map DailySnapshot.snapshots).flatten

/-- Every group belongs to symbol `s` and every snapshot inside a group
carries the group's date and symbol `s`. -/
def dailyCoherent (s : String) (ds : List DailySnapshot) : Prop :=
  ∀ g ∈ ds, g.symbol = s ∧ ∀ x ∈ g.snapshots, x.date = g.date ∧ x.symbol = s

/-- The Record statements of a statement list, in order (what the statement
loop of `Engine::evaluate` collects). -/
def recordsOf (statements : List Statement) : List Record :=
  statements.filterMap fun s =>
    match s with
    | Statement.record r => some r
    | _ => none

/-! # Theorems -/

theorem lookupA_insertA {α : Type} (m : List (String × α)) (k k' : String) (v : α) :
    lookupA (insertA m k v) k' = if k = k' then some v else lookupA m k' := by
  induction m with
  | nil =>
      by_cases h : k = k' <;> simp [insertA, lookupA, h]
  | cons hd tl ih =>
      obtain ⟨k0, w⟩ := hd
      by_cases h0 : k0 = k
      · subst h0
        by_cases h : k0 = k' <;> simp [insertA, lookupA, h]
      · by_cases h : k0 = k'
        · subst h
          have hk : ¬ k = k0 := fun hh => h0 hh.symm
          simp [insertA, lookupA, h0, hk]
        · simp [insertA, lookupA, h0, h, ih]

/-! ## The fallible wrappers never fail -/

theorem calc_asset_eq (st : EngineState) (r : Record) :
    st.calc_asset r =
      Except.ok (Output.record (st.calcAssetCore r).1, (st.calcAssetCore r).2) := rfl

theorem evaluate_record_eq (st : EngineState) (r : Record) :
    Engine.evaluate_record st r =
      Except.ok (Output.record (Engine.evaluateRecordCore st r).1,
        (Engine.evaluateRecordCore st r).2) := rfl

theorem runStatements_eq (ss : List Statement) :
    ∀ st : EngineState, Engine.runStatements st ss = Except.ok (Engine.runStmts st ss) := by
  induction ss with
  | nil => intro st; rfl
  | cons s rest ih =>
      intro st
      cases s with
      | record r => simp [Engine.runStatements, Engine.runStmts, ih, Except.map]
      | plan p => simp [Engine.runStatements, Engine.runStmts, ih]
      | define d =>
          simp [Engine.runStatements, Engine.runStmts, Engine.evaluate_define, Except.bind, ih]
      | portfolio p =>
          simp [Engine.runStatements, Engine.runStmts, Engine.evaluate_portfolio,
            EngineState.update_portfolio, Except.bind, ih]

theorem replayE_eq (rs : List Record) :
    ∀ st : EngineState, Engine.replayE st rs = Except.ok (Engine.replay st rs) := by
  induction rs with
  | nil => intro st; rfl
  | cons r rest ih =>
      intro st
      simp [Engine.replayE, Engine.replay, evaluate_record_eq, Except.bind, ih]

theorem evaluate_eq (program : Program) :
    Engine.evaluate program = Except.ok (Engine.evaluateReport program) := by
  simp [Engine.evaluate, Engine.evaluateReport, runStatements_eq, replayE_eq, Except.bind]

theorem upsert_asset_snapshots (st : EngineState) (args : UpsertAssetArgs) :
    (st.upsert_asset args).snapshots = st.snapshots := by
  unfold EngineState.upsert_asset
  cases lookupA st.assets args.symbol <;>
    simp [EngineState.update_portfolio_assets]

theorem upsert_asset_record_outputs (st : EngineState) (args : UpsertAssetArgs) :
    (st.upsert_asset args).record_outputs = st.record_outputs := by
  unfold EngineState.upsert_asset
  cases lookupA st.assets args.symbol <;>
    simp [EngineState.update_portfolio_assets]

theorem metricAt_upsert (st : EngineState) (args : UpsertAssetArgs) (s : String) :
    metricAt (st.upsert_asset args) s = metricAt st s := by
  simp [metricAt, upsert_asset_snapshots]

theorem calcAssetCore_snapshots (st : EngineState) (r : Record) :
    (st.calcAssetCore r).2.snapshots =
      insertA st.snapshots r.symStr (st.calcAssetCore r).1 := rfl

theorem calcAssetCore_record_outputs (st : EngineState) (r : Record) :
    (st.calcAssetCore r).2.record_outputs =
      st.record_outputs ++ [(st.calcAssetCore r).1] := rfl

theorem calcAssetCore_program (st : EngineState) (r : Record) :
    (st.calcAssetCore r).1.program = r := by
  unfold EngineState.calcAssetCore
  cases r.details <;>
    simp [RecordOutput.from_record_with_metric]

theorem evaluateRecordCore_snapshots (st : EngineState) (r : Record) :
    (Engine.evaluateRecordCore st r).2.snapshots =
      insertA st.snapshots r.symStr (Engine.evaluateRecordCore st r).1 := by
  simp [Engine.evaluateRecordCore, calcAssetCore_snapshots, upsert_asset_snapshots]

theorem evaluateRecordCore_snapshots_other (st : EngineState) (r : Record) (s : String)
    (h : s ≠ r.symStr) :
    lookupA (Engine.evaluateRecordCore st r).2.snapshots s = lookupA st.snapshots s := by
  rw [evaluateRecordCore_snapshots, lookupA_insertA, if_neg fun hh => h hh.symm]

theorem metricAt_evaluateRecordCore_other (st : EngineState) (r : Record) (s : String)
    (h : s ≠ r.symStr) :
    metricAt (Engine.evaluateRecordCore st r).2 s = metricAt st s := by
  simp [metricAt, evaluateRecordCore_snapshots_other st r s h]

theorem metricAt_evaluateRecordCore_self (st : EngineState) (r : Record) :
    metricAt (Engine.evaluateRecordCore st r).2 r.symStr
      = AssetMetric.from_record (Engine.evaluateRecordCore st r).1 := by
  rw [metricAt, evaluateRecordCore_snapshots, lookupA_insertA, if_pos rfl]

/-- C10 — `Engine::evaluate_record` for symbol S changes the latest-metric
table only at key S: for every engine state and every record, both the stored
snapshot and the latest metric (total_purchase, total_sale, value) of every
other symbol are unchanged by applying the record. -/
theorem C10_record_frame (st : EngineState) (r : Record) (s : String)
    (h : s ≠ r.symStr) :
    lookupA (Engine.evaluateRecordCore st r).2.snapshots s = lookupA st.snapshots s
      ∧ metricAt (Engine.evaluateRecordCore st r).2 s = metricAt st s :=
  ⟨evaluateRecordCore_snapshots_other st r s h, metricAt_evaluateRecordCore_other st r s h⟩

/-- Witness for C10 at a concrete state, record and unrelated symbol. -/
theorem C10_record_frame_witness :
    lookupA (Engine.evaluateRecordCore EngineState.new
        { date := "2024-01-01", action := Action.trade
          details := Details.trade
            { symbol := { ns := "ETF", name := "510300" }
              signed_amount := { sign := Sign.positive, value := 5000 }
              unit := "CNY", price := none }
          note := none }).2.snapshots "STOCK:AAPL"
      = lookupA EngineState.new.snapshots "STOCK:AAPL" := by
  exact (C10_record_frame EngineState.new _ "STOCK:AAPL" (by decide)).1

theorem calcAssetCore_mark_metric (st : EngineState) (r : Record) (md : MarkDetails)
    (h : r.details = Details.mark md) :
    AssetMetric.from_record (st.calcAssetCore r).1 =
      { total_purchase := (metricAt st r.symStr).total_purchase
        total_sale := (metricAt st r.symStr).total_sale
        value := md.value } := by
  obtain ⟨dt, ac, dets, nt⟩ := r
  simp only at h
  subst h
  simp only [EngineState.calcAssetCore, Record.symStr, Details.get_symbol, metricAt]
  cases hlook : lookupA st.snapshots md.symbol.display <;>
    simp [hlook, AssetMetric.from_record, RecordOutput.from_record_with_metric,
      AssetMetric.new_zero]

/-- C4 — after a Mark record is applied, the symbol's latest metric has
`value` equal to the mark's value, while `total_purchase` and `total_sale`
equal exactly their values immediately before the mark. -/
theorem C4_mark_overwrite (st : EngineState) (r : Record) (md : MarkDetails)
    (h : r.details = Details.mark md) :
    metricAt (Engine.evaluateRecordCore st r).2 r.symStr =
      { total_purchase := (metricAt st r.symStr).total_purchase
        total_sale := (metricAt st r.symStr).total_sale
        value := md.value } := by
  rw [metricAt_evaluateRecordCore_self, Engine.evaluateRecordCore,
    calcAssetCore_mark_metric _ r md h, metricAt_upsert]

/-- Witness for C4: a concrete mark over a concrete prior state. -/
theorem C4_mark_overwrite_witness :
    metricAt (Engine.evaluateRecordCore EngineState.new
        { date := "2024-03-31", action := Action.mark
          details := Details.mark
            { symbol := { ns := "ETF", name := "510300" }, value := 7200, unit := "CNY" }
          note := none }).2
        (Record.symStr
          { date := "2024-03-31", action := Action.mark
            details := Details.mark
              { symbol := { ns := "ETF", name := "510300" }, value := 7200, unit := "CNY" }
            note := none })
      = { total_purchase := 0, total_sale := 0, value := 7200 } := by
  rw [C4_mark_overwrite EngineState.new _ _ rfl]
  decide

/-- C8 — evaluation is total: `Engine::evaluate` returns a successful
`AnalysisReport` on every program and never returns an `EngineError`. -/
theorem C8_evaluate_total (program : Program) :
    ∃ rep : AnalysisReport, Engine.evaluate program = Except.ok rep :=
  ⟨Engine.evaluateReport program, evaluate_eq program⟩

@[simp] theorem isPlan_record (r : Record) : (Statement.record r).isPlan = false := rfl

@[simp] theorem isPlan_plan (p : PlanStatement) : (Statement.plan p).isPlan = true := rfl

@[simp] theorem isPlan_define (d : Define) : (Statement.define d).isPlan = false := rfl

@[simp] theorem isPlan_portfolio (p : PortfolioStatement) :
    (Statement.portfolio p).isPlan = false := rfl

theorem runStmts_filter_plan (ss : List Statement) :
    ∀ st : EngineState,
      Engine.runStmts st (ss.filter fun s => !s.isPlan) = Engine.runStmts st ss := by
  induction ss with
  | nil => intro st; rfl
  | cons s rest ih =>
      intro st
      cases s with
      | record r => simp [Engine.runStmts, ih]
      | plan p => simp [Engine.runStmts, ih]
      | define d => simp [Engine.runStmts, ih]
      | portfolio p => simp [Engine.runStmts, ih]

/-- C9 — Plan statements have no observable effect: evaluating a program with
all Plan statements removed produces the identical `AnalysisReport` (assets,
portfolios and daily_snapshot alike). -/
theorem C9_plan_noop (program : Program) :
    Engine.evaluate { statements := program.statements.filter fun s => !s.isPlan } =
      Engine.evaluate program := by
  simp [evaluate_eq, Engine.evaluateReport, runStmts_filter_plan]

/-- Evaluation of the display form of the scenario symbol. -/
theorem etfSymbolDisplay :
    Symbol.display { ns := "ETF", name := "510300" } = "ETF:510300" := rfl

/-- C1 — evaluating the trade-then-mark two-record program yields a final
metric for ETF:510300 with total_purchase = 5000, total_sale = 0,
value = 7200 and profit = 2200. -/
theorem C1_scenario :
    ((Engine.evaluate c1Program).toOption.bind fun rep =>
        finalSnapshot rep "ETF:510300").map
        (fun sn => (sn.total_purchase, sn.total_sale, sn.value, sn.profit))
      = some (5000, 0, 7200, 2200) := by
  norm_num [Engine.evaluate, Engine.runStatements, Engine.evaluate_record,
    EngineState.calc_asset, Engine.replayE, Except.bind, Except.map, Except.toOption,
    c1Program, c1Trade, c1Mark, sortRecords, insertByDate, strLe, charListLe,
    Engine.evaluateRecordCore, EngineState.upsert_asset, EngineState.calcAssetCore,
    EngineState.update_portfolio_assets, Asset.new, lookupA, insertA, Record.symStr,
    Details.get_symbol, etfSymbolDisplay, TradeDetails.buy, SignedAmount.to_f64,
    AssetMetric.new_zero, AssetMetric.from_record, AssetMetric.get_profit,
    RecordOutput.from_record_with_metric, buildReport, aggregate, aggStep, addToDaily,
    DailySnapshot.new, Snapshot.from_output, finalSnapshot, EngineState.new,
    List.getLast?, Option.bind, Option.getD, Option.map]
  simp +decide

/-- Counterexample to C3 as stated: in `c3Program` the Define for ETF:510300
follows a Portfolio listing that symbol, yet the materialized portfolio's
stored Asset copy keeps alias `none` and target_return `none` — it does not
reflect the Define's alias `"CSI 300 ETF"` and target 0.09, because the
vacant branch of `EngineState::upsert_asset` inserts the fresh asset without
calling `update_portfolio_assets`. -/
theorem C3_counterexample :
    (Engine.evaluate c3Program).toOption.map
        (fun rep => rep.portfolios.map fun p =>
          p.assets.map fun a => (a.aliasName, a.target_return))
      = some [[(none, none)]] := by
  rfl

/-- C3 amended — the registry upsert propagates into every already
materialized portfolio provided the symbol already has a registry entry when
the upsert runs (the occupied branch): every portfolio member asset carrying
that symbol is replaced by the updated registry asset, whose alias and target
return reflect the fields the upsert supplies.  (When the upsert creates the
entry fresh, materialized portfolios keep their placeholder copy, as the
counterexample shows.) -/
theorem C3_amended_upsert_propagates (st : EngineState) (args : UpsertAssetArgs)
    (a0 : Asset) (hlook : lookupA st.assets args.symbol = some a0)
    (hsym : a0.symbol = args.symbol) :
    (st.upsert_asset args).portfolios =
      st.portfolios.map fun p =>
        { p with
            assets := p.assets.map fun a =>
              if a.symbol = args.symbol then
                { a0 with
                    aliasName :=
                      match args.name with
                      | some n => some n
                      | none => a0.aliasName
                    target_return :=
                      match args.target_return with
                      | some t => some t
                      | none => a0.target_return }
              else a } := by
  unfold EngineState.upsert_asset
  rw [hlook]
  simp [EngineState.update_portfolio_assets, hsym]

/-- Witness for the amended C3 at a concrete occupied state. -/
theorem C3_amended_witness :
    (c3State.upsert_asset
        { symbol := "ETF:510300", name := some "CSI 300 ETF"
          target_return := some (9 / 100) }).portfolios
      = [{ name := "P"
           assets :=
             [{ symbol := "ETF:510300", aliasName := some "CSI 300 ETF"
                target_return := some (9 / 100) }]
           target_return := 0 }] := by
  rw [C3_amended_upsert_propagates c3State
    { symbol := "ETF:510300", name := some "CSI 300 ETF", target_return := some (9 / 100) }
    { symbol := "ETF:510300", aliasName := none, target_return := none } rfl rfl]
  rfl

theorem sumSigned_cons (a : SignedAmount) (l : List SignedAmount) :
    sumSigned (a :: l) = a.to_f64 + sumSigned l := by
  simp [sumSigned]

theorem sumBuys_cons (a : SignedAmount) (l : List SignedAmount) :
    sumBuys (a :: l) = (if a.isBuy then a.value else 0) + sumBuys l := by
  cases h : a.isBuy <;> simp [sumBuys, h]

theorem sumSells_cons (a : SignedAmount) (l : List SignedAmount) :
    sumSells (a :: l) = (if a.isBuy then 0 else a.value) + sumSells l := by
  cases h : a.isBuy <;> simp [sumSells, h]

theorem to_f64_eq (a : SignedAmount) :
    a.to_f64 = if a.isBuy then a.value else -a.value := by
  cases h : a.sign <;> simp [SignedAmount.to_f64, SignedAmount.isBuy, h]

theorem sumSigned_eq_buys_sub_sells (l : List SignedAmount) :
    sumSigned l = sumBuys l - sumSells l := by
  induction l with
  | nil => simp [sumSigned, sumBuys, sumSells]
  | cons a l ih =>
      rw [sumSigned_cons, sumBuys_cons, sumSells_cons, ih, to_f64_eq]
      cases h : a.isBuy <;> simp <;> ring

theorem tradeAmounts_cons_trade (r : Record) (rest : List Record) (s : String)
    (td : TradeDetails) (h : r.details = Details.trade td) (hs : r.symStr = s) :
    tradeAmounts (r :: rest) s = td.signed_amount :: tradeAmounts rest s := by
  simp [tradeAmounts, h, hs]

theorem tradeAmounts_cons_other (r : Record) (rest : List Record) (s : String)
    (hs : r.symStr ≠ s) :
    tradeAmounts (r :: rest) s = tradeAmounts rest s := by
  cases h : r.details <;> simp [tradeAmounts, h, hs]

theorem buy_eq_isBuy (td : TradeDetails) :
    td.buy = td.signed_amount.isBuy := by
  cases h : td.signed_amount.sign <;>
    simp [TradeDetails.buy, SignedAmount.isBuy, h]

theorem calcAssetCore_trade_metric (st : EngineState) (r : Record) (td : TradeDetails)
    (h : r.details = Details.trade td) :
    AssetMetric.from_record (st.calcAssetCore r).1 =
      { total_purchase := (metricAt st r.symStr).total_purchase +
          (if td.signed_amount.isBuy then td.signed_amount.value else 0)
        total_sale := (metricAt st r.symStr).total_sale +
          (if td.signed_amount.isBuy then 0 else td.signed_amount.value)
        value := (metricAt st r.symStr).value + td.signed_amount.to_f64 } := by
  obtain ⟨dt, ac, dets, nt⟩ := r
  simp only at h
  subst h
  simp only [EngineState.calcAssetCore, Record.symStr, Details.get_symbol, metricAt,
    buy_eq_isBuy]
  cases hlook : lookupA st.snapshots td.symbol.display <;>
    cases hb : td.signed_amount.isBuy <;>
      simp [hlook, hb, AssetMetric.from_record, RecordOutput.from_record_with_metric,
        AssetMetric.new_zero]

theorem metricAt_replay_trades (s : String) (rs : List Record) :
    ∀ st : EngineState,
      (∀ r ∈ rs, r.symStr = s → ∃ td, r.details = Details.trade td) →
      metricAt (Engine.replay st rs) s =
        { total_purchase := (metricAt st s).total_purchase + sumBuys (tradeAmounts rs s)
          total_sale := (metricAt st s).total_sale + sumSells (tradeAmounts rs s)
          value := (metricAt st s).value + sumSigned (tradeAmounts rs s) } := by
  induction rs with
  | nil =>
      intro st h
      simp [Engine.replay, tradeAmounts, sumBuys, sumSells, sumSigned]
  | cons r rest ih =>
      intro st h
      have hrest : ∀ r' ∈ rest, r'.symStr = s → ∃ td, r'.details = Details.trade td :=
        fun r' hr' => h r' (List.mem_cons_of_mem _ hr')
      rw [Engine.replay, ih _ hrest]
      by_cases hs : r.symStr = s
      · obtain ⟨td, htd⟩ := h r (List.mem_cons_self _ _) hs
        rw [← hs, metricAt_evaluateRecordCore_self, Engine.evaluateRecordCore,
          calcAssetCore_trade_metric _ r td htd, metricAt_upsert, hs,
          tradeAmounts_cons_trade r rest s td htd hs,
          sumBuys_cons, sumSells_cons, sumSigned_cons]
        cases hb : td.signed_amount.isBuy <;> simp [hb, add_assoc]
      · rw [metricAt_evaluateRecordCore_other st r s fun hh => hs hh.symm,
          tradeAmounts_cons_other r rest s hs]

theorem calcAssetCore_profit (st : EngineState) (r : Record) :
    (st.calcAssetCore r).1.profit =
      (st.calcAssetCore r).1.value - (st.calcAssetCore r).1.total_purchase +
        (st.calcAssetCore r).1.total_sale := rfl

theorem replay_profit_coherent (s : String) (rs : List Record) :
    ∀ (st : EngineState) (o : RecordOutput),
      lookupA (Engine.replay st rs).snapshots s = some o →
      lookupA st.snapshots s = some o ∨
        o.profit = o.value - o.total_purchase + o.total_sale := by
  induction rs with
  | nil => intro st o h; exact Or.inl h
  | cons r rest ih =>
      intro st o h
      rcases ih _ _ h with h' | h'
      · by_cases hs : s = r.symStr
        · subst hs
          rw [evaluateRecordCore_snapshots, lookupA_insertA, if_pos rfl] at h'
          right
          have : o = (Engine.evaluateRecordCore st r).1 := by
            exact (Option.some.injEq _ _).mp h'.symm
          subst this
          exact calcAssetCore_profit _ r
        · rw [evaluateRecordCore_snapshots_other st r s hs] at h'
          exact Or.inl h'
      · exact Or.inr h'

/-- C5 — for a symbol whose records are all Trades, after any replay of the
records: value equals the signed sum of the trade amounts, total_purchase the
sum of the positive amounts, total_sale the sum of the magnitudes of the
negative amounts, and the stored output's profit equals
value − total_purchase + total_sale, which is 0.  (Quantifying over all
record lists covers every intermediate point of a replay, since each prefix
of a pure-trade history is itself a pure-trade history.) -/
theorem C5_trade_accumulation (st0 : EngineState) (rs : List Record) (s : String)
    (h0 : lookupA st0.snapshots s = none)
    (hT : ∀ r ∈ rs, r.symStr = s → ∃ td, r.details = Details.trade td) :
    (metricAt (Engine.replay st0 rs) s).value = sumSigned (tradeAmounts rs s)
    ∧ (metricAt (Engine.replay st0 rs) s).total_purchase = sumBuys (tradeAmounts rs s)
    ∧ (metricAt (Engine.replay st0 rs) s).total_sale = sumSells (tradeAmounts rs s)
    ∧ ∀ o : RecordOutput, lookupA (Engine.replay st0 rs).snapshots s = some o →
        o.profit = o.value - o.total_purchase + o.total_sale ∧ o.profit = 0 := by
  have hm := metricAt_replay_trades s rs st0 hT
  have hz : metricAt st0 s = AssetMetric.new_zero := by simp [metricAt, h0]
  rw [hz] at hm
  simp only [AssetMetric.new_zero, zero_add] at hm
  refine ⟨by simp [hm], by simp [hm], by simp [hm], ?_⟩
  intro o ho
  have hco := replay_profit_coherent s rs st0 o ho
  rcases hco with h' | h'
  · rw [h0] at h'; cases h'
  · refine ⟨h', ?_⟩
    have hfields : AssetMetric.from_record o = metricAt (Engine.replay st0 rs) s := by
      simp [metricAt, ho]
    have hv : o.value = sumSigned (tradeAmounts rs s) := by
      have := congrArg AssetMetric.value hfields
      simpa [AssetMetric.from_record, hm] using this
    have hp : o.total_purchase = sumBuys (tradeAmounts rs s) := by
      have := congrArg AssetMetric.total_purchase hfields
      simpa [AssetMetric.from_record, hm] using this
    have hsl : o.total_sale = sumSells (tradeAmounts rs s) := by
      have := congrArg AssetMetric.total_sale hfields
      simpa [AssetMetric.from_record, hm] using this
    rw [h', hv, hp, hsl, sumSigned_eq_buys_sub_sells]
    ring

/-- Witness for C5: a buy of 5000 followed by a sell of 2000 on one symbol. -/
theorem C5_trade_accumulation_witness :
    (metricAt (Engine.replay EngineState.new
        [{ date := "2024-01-01", action := Action.trade
           details := Details.trade
             { symbol := { ns := "ETF", name := "510300" }
               signed_amount := { sign := Sign.positive, value := 5000 }
               unit := "CNY", price := none }
           note := none },
         { date := "2024-02-01", action := Action.trade
           details := Details.trade
             { symbol := { ns := "ETF", name := "510300" }
               signed_amount := { sign := Sign.negative, value := 2000 }
               unit := "CNY", price := none }
           note := none }]) "ETF:510300").value
      = 3000 := by
  have h := C5_trade_accumulation EngineState.new
    [{ date := "2024-01-01", action := Action.trade
       details := Details.trade
         { symbol := { ns := "ETF", name := "510300" }
           signed_amount := { sign := Sign.positive, value := 5000 }
           unit := "CNY", price := none }
       note := none },
     { date := "2024-02-01", action := Action.trade
       details := Details.trade
         { symbol := { ns := "ETF", name := "510300" }
           signed_amount := { sign := Sign.negative, value := 2000 }
           unit := "CNY", price := none }
       note := none }] "ETF:510300" rfl
    (by
      intro r hr hsym
      simp only [List.mem_cons, List.mem_singleton] at hr
      rcases hr with h1 | h1 | h1
      · subst h1; exact ⟨_, rfl⟩
      · subst h1; exact ⟨_, rfl⟩
      · cases h1)
  rw [h.1]
  norm_num [sumSigned, tradeAmounts, SignedAmount.to_f64, Record.symStr,
    Details.get_symbol, etfSymbolDisplay, List.filterMap_cons]

/-! ## Span lemmas -/

theorem takeWhile_append_all (p : Char → Bool) (l r : List Char)
    (hl : l.all p = true) (hr : headSat p r = false) :
    (l ++ r).takeWhile p = l := by
  induction l with
  | nil =>
      cases r with
      | nil => rfl
      | cons x xs =>
          simp only [headSat] at hr
          simp [List.takeWhile_cons, hr]
  | cons a as ih =>
      simp only [List.all_cons, Bool.and_eq_true] at hl
      simp [List.takeWhile_cons, hl.1, ih hl.2]

theorem dropWhile_append_all (p : Char → Bool) (l r : List Char)
    (hl : l.all p = true) (hr : headSat p r = false) :
    (l ++ r).dropWhile p = r := by
  induction l with
  | nil =>
      cases r with
      | nil => rfl
      | cons x xs =>
          simp only [headSat] at hr
          simp [List.dropWhile_cons, hr]
  | cons a as ih =>
      simp only [List.all_cons, Bool.and_eq_true] at hl
      simp [List.dropWhile_cons, hl.1, ih hl.2]

/-! ## Number/date scanning facts -/

theorem digit_ne_dot (c : Char) (h : c.isDigit = true) : (c == '.') = false := by
  by_cases hc : c = '.'
  · subst hc; exact absurd h (by decide)
  · exact beq_eq_false_iff_ne.mpr hc

theorem rustParseF64Ok_dash (a b : List Char) :
    rustParseF64Ok (a ++ '-' :: b) = false := by
  have h : (Char.isDigit '-' || ('-' == '.')) = false := by decide
  simp [rustParseF64Ok, List.all_append, h]

theorem rustParseF64Ok_digits (ds : List Char) (h1 : ds ≠ [])
    (h2 : ds.all Char.isDigit = true) :
    rustParseF64Ok ds = true := by
  have hmem : ∀ c ∈ ds, Char.isDigit c = true := by
    simpa [List.all_eq_true] using h2
  cases ds with
  | nil => exact absurd rfl h1
  | cons c cs =>
      rw [rustParseF64Ok]
      have h1' : (c :: cs).isEmpty = false := rfl
      have hall : (c :: cs).all (fun x => x.isDigit || (x == '.')) = true := by
        rw [List.all_eq_true]
        intro x hx
        simp [hmem x hx]
      have hnodot : ((c :: cs).filter fun x => x == '.') = [] := by
        rw [List.filter_eq_nil_iff]
        intro x hx
        simp [digit_ne_dot x (hmem x hx)]
      have hany : (c :: cs).any Char.isDigit = true := by
        simp [List.any_cons, hmem c (List.mem_cons_self c cs)]
      simp [h1', hall, hnodot, hany]

theorem rustParseF64Ok_digits_frac (ds frac : List Char) (h1 : ds ≠ [])
    (h2 : ds.all Char.isDigit = true) (h3 : frac.all Char.isDigit = true) :
    rustParseF64Ok (ds ++ '.' :: frac) = true := by
  have hmem : ∀ c ∈ ds, Char.isDigit c = true := by
    simpa [List.all_eq_true] using h2
  have hmemf : ∀ c ∈ frac, Char.isDigit c = true := by
    simpa [List.all_eq_true] using h3
  cases ds with
  | nil => exact absurd rfl h1
  | cons c cs =>
      rw [rustParseF64Ok]
      have hdigits : ∀ x ∈ (c :: cs) ++ '.' :: frac, (x.isDigit || (x == '.')) = true := by
        intro x hx
        rcases List.mem_append.mp hx with hx | hx
        · simp [hmem x hx]
        · rcases List.mem_cons.mp hx with hx | hx
          · simp [hx]
          · simp [hmemf x hx]
      have h1' : ((c :: cs) ++ '.' :: frac).isEmpty = false := rfl
      have hall : ((c :: cs) ++ '.' :: frac).all (fun x => x.isDigit || (x == '.')) = true := by
        rw [List.all_eq_true]
        exact hdigits
      have hnodot1 : ((c :: cs).filter fun x => x == '.') = [] := by
        rw [List.filter_eq_nil_iff]
        intro x hx
        simp [digit_ne_dot x (hmem x hx)]
      have hnodot2 : (frac.filter fun x => x == '.') = [] := by
        rw [List.filter_eq_nil_iff]
        intro x hx
        simp [digit_ne_dot x (hmemf x hx)]
      have hdot : ((((c :: cs) ++ '.' :: frac).filter fun x => x == '.').length ≤ 1) := by
        rw [List.filter_append, hnodot1]
        simp [List.filter_cons, hnodot2]
      have hany : ((c :: cs) ++ '.' :: frac).any Char.isDigit = true := by
        simp [List.any_cons, List.any_append, hmem c (List.mem_cons_self c cs)]
      rw [h1', hall, hany]
      simp only [Bool.not_false, Bool.true_and, Bool.and_true]
      simpa [List.cons_append] using hdot

theorem numTail_dash (a b rest : List Char) :
    numTail (a ++ '-' :: b) rest
      = Except.error { message := "Invalid number or date", position := 0 } := by
  have hassoc : ∀ x : List Char, (a ++ '-' :: b) ++ '.' :: x = a ++ '-' :: (b ++ '.' :: x) := by
    intro x; simp
  cases h : headIs rest '.' <;>
    simp [numTail, h, hassoc, rustParseF64Ok_dash]

theorem numTail_digits (ds rest : List Char) (h1 : ds ≠ [])
    (h2 : ds.all Char.isDigit = true) :
    ∃ q rest2, numTail ds rest = Except.ok (Token.number q, rest2) := by
  cases h : headIs rest '.'
  · refine ⟨numValue ds, rest, ?_⟩
    simp [numTail, h, rustParseF64Ok_digits ds h1 h2]
  · refine ⟨numValue (ds ++ '.' :: rest.tail.takeWhile Char.isDigit),
      rest.tail.dropWhile Char.isDigit, ?_⟩
    simp [numTail, h,
      rustParseF64Ok_digits_frac ds (rest.tail.takeWhile Char.isDigit) h1 h2
        List.all_takeWhile]

theorem numTail_not_date (consumed rest : List Char) (s : String) (r2 : List Char) :
    numTail consumed rest ≠ Except.ok (Token.date s, r2) := by
  unfold numTail
  cases h : headIs rest '.' <;> simp [h] <;> split <;> simp

theorem takeWhile_nil_of_headSat (p : Char → Bool) (l : List Char)
    (h : headSat p l = false) : l.takeWhile p = [] := by
  cases l with
  | nil => rfl
  | cons x xs =>
      simp only [headSat] at h
      simp [List.takeWhile_cons, h]

/-- Counterexample to C6 as stated: on the digit-leading input `2024-01` the
date pattern fails at a checkpoint after the first `-` has been consumed (no
second `-` follows the month digits); the claim says the lexer falls back to
successfully emitting a Number token, but the consumed text `2024-01`
contains the dash and fails float parsing, so the lexer emits a LexError. -/
theorem C6_counterexample :
    scan_number_or_date "2024-01".data
      = Except.error { message := "Invalid number or date", position := 0 } := by
  rfl

/-- C6 corrected — date/number scanning of digit-leading input:
(a) a `DDDD-DD-DD` shape (maximal digit runs of lengths 4, 2 and 2) lexes to
a Date token carrying exactly that text;
(b) when the date pattern fails before any `-` is consumed (the leading digit
run is not of length 4 or is not followed by `-`), the scanner falls back to
successfully emitting a floating-point Number token from the digit run plus
an optional trailing `.digits`;
(c) once the first `-` of a date candidate has been consumed, the scanner
never produces a Number token: the result is a Date token or the
`Invalid number or date` LexError (this is where the original claim fails);
(d) every Date token the scanner emits has the 4-2-2 all-digit shape. -/
theorem C6_date_number_scanning :
    (∀ y m d rest : List Char,
        y.all Char.isDigit = true → m.all Char.isDigit = true →
        d.all Char.isDigit = true →
        y.length = 4 → m.length = 2 → d.length = 2 →
        headSat Char.isDigit rest = false →
        scan_number_or_date (y ++ '-' :: (m ++ '-' :: (d ++ rest)))
          = Except.ok (Token.date ⟨y ++ '-' :: (m ++ '-' :: d)⟩, rest))
    ∧ (∀ ds rest : List Char,
        ds ≠ [] → ds.all Char.isDigit = true →
        headSat Char.isDigit rest = false →
        ¬ (headIs rest '-' = true ∧ ds.length = 4) →
        ∃ q rest2, scan_number_or_date (ds ++ rest)
          = Except.ok (Token.number q, rest2))
    ∧ (∀ input : List Char,
        headIs (input.dropWhile Char.isDigit) '-' = true →
        (input.takeWhile Char.isDigit).length = 4 →
        (∃ s rest2, scan_number_or_date input = Except.ok (Token.date s, rest2))
          ∨ scan_number_or_date input
              = Except.error { message := "Invalid number or date", position := 0 })
    ∧ (∀ (input : List Char) (s : String) (rest2 : List Char),
        scan_number_or_date input = Except.ok (Token.date s, rest2) →
        ∃ y m d : List Char,
          s = ⟨y ++ '-' :: (m ++ '-' :: d)⟩
          ∧ y.all Char.isDigit = true ∧ m.all Char.isDigit = true
          ∧ d.all Char.isDigit = true
          ∧ y.length = 4 ∧ m.length = 2 ∧ d.length = 2) := by
  have hdashSat : ∀ l : List Char, headSat Char.isDigit ('-' :: l) = false := by
    intro l; simp [headSat]
  refine ⟨?_, ?_, ?_, ?_⟩
  · intro y m d rest hy hm hd hly hlm hld hr
    have ht1 := takeWhile_append_all Char.isDigit y ('-' :: (m ++ '-' :: (d ++ rest))) hy
      (hdashSat _)
    have hd1 := dropWhile_append_all Char.isDigit y ('-' :: (m ++ '-' :: (d ++ rest))) hy
      (hdashSat _)
    have ht2 := takeWhile_append_all Char.isDigit m ('-' :: (d ++ rest)) hm (hdashSat _)
    have hd2 := dropWhile_append_all Char.isDigit m ('-' :: (d ++ rest)) hm (hdashSat _)
    have ht3 := takeWhile_append_all Char.isDigit d rest hd hr
    have hd3 := dropWhile_append_all Char.isDigit d rest hd hr
    simp only [scan_number_or_date, ht1, hd1, List.tail_cons, ht2, hd2, ht3, hd3]
    simp [headIs, hly, hlm, hld]
  · intro ds rest hne hds hr hnot
    have ht := takeWhile_append_all Char.isDigit ds rest hds hr
    have hdw := dropWhile_append_all Char.isDigit ds rest hds hr
    simp only [scan_number_or_date, ht, hdw]
    rw [if_neg hnot]
    exact numTail_digits ds rest hne hds
  · intro input hdash hlen
    simp only [scan_number_or_date]
    rw [if_pos ⟨hdash, hlen⟩]
    by_cases h2 : ((input.dropWhile Char.isDigit).tail.takeWhile Char.isDigit).length = 2
        ∧ headIs ((input.dropWhile Char.isDigit).tail.dropWhile Char.isDigit) '-' = true
    · rw [if_pos h2]
      by_cases h3 : (((input.dropWhile Char.isDigit).tail.dropWhile
          Char.isDigit).tail.takeWhile Char.isDigit).length = 2
      · rw [if_pos h3]
        exact Or.inl ⟨_, _, rfl⟩
      · rw [if_neg h3]
        exact Or.inr (numTail_dash _ _ _)
    · rw [if_neg h2]
      exact Or.inr (numTail_dash _ _ _)
  · intro input s rest2 h
    simp only [scan_number_or_date] at h
    by_cases h1 : headIs (input.dropWhile Char.isDigit) '-' = true
        ∧ (input.takeWhile Char.isDigit).length = 4
    case neg =>
      rw [if_neg h1] at h
      exact absurd h (numTail_not_date _ _ _ _)
    rw [if_pos h1] at h
    by_cases h2 : ((input.dropWhile Char.isDigit).tail.takeWhile Char.isDigit).length = 2
        ∧ headIs ((input.dropWhile Char.isDigit).tail.dropWhile Char.isDigit) '-' = true
    case neg =>
      rw [if_neg h2] at h
      exact absurd h (numTail_not_date _ _ _ _)
    rw [if_pos h2] at h
    by_cases h3 : (((input.dropWhile Char.isDigit).tail.dropWhile
        Char.isDigit).tail.takeWhile Char.isDigit).length = 2
    case neg =>
      rw [if_neg h3] at h
      exact absurd h (numTail_not_date _ _ _ _)
    rw [if_pos h3] at h
    simp only [Except.ok.injEq, Prod.mk.injEq, Token.date.injEq] at h
    exact ⟨_, _, _, h.1.symm, List.all_takeWhile, List.all_takeWhile,
      List.all_takeWhile, h1.2, h2.1, h3⟩

/-- Witness for the corrected C6 at concrete inputs: the date `2024-01-15`,
the early-failing number `123`, and the late-failing candidate `2024-0x`. -/
theorem C6_date_number_scanning_witness :
    scan_number_or_date ("2024".data ++ '-' :: ("01".data ++ '-' :: ("15".data ++ [])))
        = Except.ok (Token.date ⟨"2024".data ++ '-' :: ("01".data ++ '-' :: "15".data)⟩, [])
    ∧ (∃ q rest2, scan_number_or_date ("123".data ++ [])
        = Except.ok (Token.number q, rest2))
    ∧ ((∃ s rest2, scan_number_or_date "2024-0x".data = Except.ok (Token.date s, rest2))
        ∨ scan_number_or_date "2024-0x".data
            = Except.error { message := "Invalid number or date", position := 0 }) :=
  ⟨C6_date_number_scanning.1 "2024".data "01".data "15".data []
      (by decide) (by decide) (by decide) (by decide) (by decide) (by decide) (by decide),
    C6_date_number_scanning.2.1 "123".data [] (by decide) (by decide) (by decide)
      (by decide),
    C6_date_number_scanning.2.2.1 "2024-0x".data (by decide) (by decide)⟩

/-- C7 — identifier-leading input of the form `NAME1:NAME2` with both
segments non-empty identifier characters lexes to a single Symbol token
carrying the two segments (in original case); an identifier immediately
followed by `:` with no identifier character after the colon is a LexError. -/
theorem C7_symbol_scanning :
    (∀ n1 n2 rest : List Char,
        n1 ≠ [] → n2 ≠ [] →
        n1.all isIdentChar = true → n2.all isIdentChar = true →
        headSat isIdentChar rest = false →
        scan_identifier_or_keyword (n1 ++ ':' :: (n2 ++ rest))
          = Except.ok (Token.symbol ⟨n1⟩ ⟨n2⟩, rest))
    ∧ (∀ n1 rest : List Char,
        n1 ≠ [] → n1.all isIdentChar = true →
        headSat isIdentChar rest = false →
        scan_identifier_or_keyword (n1 ++ ':' :: rest)
          = Except.error { message := "Expected identifier after colon", position := 0 }) := by
  have hcolonSat : ∀ l : List Char, headSat isIdentChar (':' :: l) = false := by
    intro l; simp [headSat]; decide
  have hcu : ∀ l : List Char, headIs (':' :: l) '_' = false := by
    intro l; simp [headIs]
  have hcc : ∀ l : List Char, headIs (':' :: l) ':' = true := by
    intro l; simp [headIs]
  constructor
  · intro n1 n2 rest h1 h2 ha1 ha2 hr
    have ht1 := takeWhile_append_all isIdentChar n1 (':' :: (n2 ++ rest)) ha1 (hcolonSat _)
    have hd1 := dropWhile_append_all isIdentChar n1 (':' :: (n2 ++ rest)) ha1 (hcolonSat _)
    have ht2 := takeWhile_append_all isIdentChar n2 rest ha2 hr
    have hd2 := dropWhile_append_all isIdentChar n2 rest ha2 hr
    simp only [scan_identifier_or_keyword, ht1, hd1]
    rw [if_neg fun hc => Bool.false_ne_true ((hcu _).symm.trans hc.2)]
    simp only [symbolOrKeyword, hcc, List.tail_cons, ht2, hd2, if_true]
    rw [if_pos (List.length_pos.mpr h2)]
  · intro n1 rest h1 ha1 hr
    have ht1 := takeWhile_append_all isIdentChar n1 (':' :: rest) ha1 (hcolonSat _)
    have hd1 := dropWhile_append_all isIdentChar n1 (':' :: rest) ha1 (hcolonSat _)
    simp only [scan_identifier_or_keyword, ht1, hd1]
    rw [if_neg fun hc => Bool.false_ne_true ((hcu _).symm.trans hc.2)]
    simp only [symbolOrKeyword, hcc, List.tail_cons, if_true,
      takeWhile_nil_of_headSat isIdentChar rest hr]
    rw [if_neg (by simp)]

/-- Witness for C7: the symbol `ETF:510300` lexes to a Symbol token, and the
dangling `ETF:` is a LexError. -/
theorem C7_symbol_scanning_witness :
    scan_identifier_or_keyword ("ETF".data ++ ':' :: ("510300".data ++ []))
        = Except.ok (Token.symbol "ETF" "510300", [])
    ∧ scan_identifier_or_keyword ("ETF".data ++ ':' :: [])
        = Except.error { message := "Expected identifier after colon", position := 0 } :=
  ⟨C7_symbol_scanning.1 "ETF".data "510300".data []
      (by decide) (by decide) (by decide) (by decide) (by decide),
    C7_symbol_scanning.2 "ETF".data [] (by decide) (by decide) (by decide)⟩

/-! ### The lexicographic string order -/

theorem char_eq_of_toNat_eq {a b : Char} (h : a.toNat = b.toNat) : a = b := by
  apply Char.eq_of_val_eq
  exact UInt32.ext h

theorem charListLe_refl : ∀ a : List Char, charListLe a a = true
  | [] => rfl
  | c :: cs => by simp [charListLe, charListLe_refl cs]

theorem charListLe_total : ∀ a b : List Char,
    charListLe a b = true ∨ charListLe b a = true
  | [], _ => Or.inl rfl
  | _ :: _, [] => Or.inr rfl
  | a :: as, b :: bs => by
      rcases Nat.lt_trichotomy a.toNat b.toNat with h | h | h
      · left; simp [charListLe, h]
      · have hab : a = b := char_eq_of_toNat_eq h
        subst hab
        rcases charListLe_total as bs with h' | h'
        · left; simp [charListLe, h']
        · right; simp [charListLe, h']
      · right; simp [charListLe, h]

theorem charListLe_antisymm : ∀ a b : List Char,
    charListLe a b = true → charListLe b a = true → a = b
  | [], [], _, _ => rfl
  | [], _ :: _, _, h2 => by simp [charListLe] at h2
  | _ :: _, [], h1, _ => by simp [charListLe] at h1
  | a :: as, b :: bs, h1, h2 => by
      rcases Nat.lt_trichotomy a.toNat b.toNat with h | h | h
      · rw [charListLe] at h2
        simp [Nat.lt_irrefl, Nat.lt_asymm h, h] at h2
      · have hab : a = b := char_eq_of_toNat_eq h
        subst hab
        rw [charListLe] at h1 h2
        simp [Nat.lt_irrefl] at h1 h2
        rw [charListLe_antisymm as bs h1 h2]
      · rw [charListLe] at h1
        simp [Nat.lt_irrefl, Nat.lt_asymm h, h] at h1

theorem charListLe_trans : ∀ a b c : List Char,
    charListLe a b = true → charListLe b c = true → charListLe a c = true
  | [], _, _, _, _ => rfl
  | _ :: _, [], _, h1, _ => by simp [charListLe] at h1
  | _ :: _, _ :: _, [], _, h2 => by simp [charListLe] at h2
  | a :: as, b :: bs, c :: cs, h1, h2 => by
      rw [charListLe] at h1 h2 ⊢
      rcases Nat.lt_trichotomy a.toNat b.toNat with hab | hab | hab
      · rcases Nat.lt_trichotomy b.toNat c.toNat with hbc | hbc | hbc
        · simp [Nat.lt_trans hab hbc]
        · simp [hbc ▸ hab]
        · simp [Nat.lt_asymm hbc, hbc] at h2
      · rcases Nat.lt_trichotomy b.toNat c.toNat with hbc | hbc | hbc
        · simp [hab ▸ hbc]
        · have hac : a.toNat = c.toNat := hab.trans hbc
          have has : charListLe as bs = true := by
            simpa [hab, Nat.lt_irrefl] using h1
          have hbs : charListLe bs cs = true := by
            simpa [hbc, Nat.lt_irrefl] using h2
          simp [hac, Nat.lt_irrefl, charListLe_trans as bs cs has hbs]
        · simp [Nat.lt_asymm hbc, hbc] at h2
      · simp [Nat.lt_asymm hab, hab] at h1

theorem strLe_refl (a : String) : strLe a a = true := charListLe_refl a.data

theorem strLe_total (a b : String) : strLe a b = true ∨ strLe b a = true :=
  charListLe_total a.data b.data

theorem strLe_antisymm (a b : String) (h1 : strLe a b = true)
    (h2 : strLe b a = true) : a = b := by
  have hd : a.data = b.data := charListLe_antisymm a.data b.data h1 h2
  cases a with
  | mk da => cases b with
    | mk db =>
        simp only at hd
        rw [hd]

theorem strLe_trans (a b c : String) (h1 : strLe a b = true)
    (h2 : strLe b c = true) : strLe a c = true :=
  charListLe_trans a.data b.data c.data h1 h2

theorem strLe_of_not_le (a b : String) (h : ¬ strLe a b = true) :
    strLe b a = true :=
  (strLe_total a b).resolve_left h

theorem strLt_trans (a b c : String) (h1 : strLt a b) (h2 : strLt b c) :
    strLt a c := by
  refine ⟨strLe_trans a b c h1.1 h2.1, ?_⟩
  intro hac
  subst hac
  exact h1.2 (strLe_antisymm a b h1.1 h2.1)

/-! ### Stable date sort -/

theorem insertByDate_mem (r : Record) :
    ∀ (l : List Record) (x : Record), x ∈ insertByDate r l → x = r ∨ x ∈ l := by
  intro l
  induction l with
  | nil => intro x hx; simp [insertByDate] at hx; exact Or.inl hx
  | cons y ys ih =>
      intro x hx
      by_cases hle : strLe r.date y.date = true
      · simp [insertByDate, hle] at hx
        rcases hx with hx | hx | hx
        · exact Or.inl hx
        · exact Or.inr (by simp [hx])
        · exact Or.inr (List.mem_cons_of_mem _ hx)
      · simp [insertByDate, hle] at hx
        rcases hx with hx | hx
        · exact Or.inr (by simp [hx])
        · rcases ih x hx with hx' | hx'
          · exact Or.inl hx'
          · exact Or.inr (List.mem_cons_of_mem _ hx')

theorem insertByDate_sorted (r : Record) :
    ∀ l : List Record,
      List.Pairwise (fun a b => strLe a.date b.date = true) l →
      List.Pairwise (fun a b => strLe a.date b.date = true) (insertByDate r l) := by
  intro l
  induction l with
  | nil => intro _; simp [insertByDate]
  | cons y ys ih =>
      intro hp
      rcases List.pairwise_cons.mp hp with ⟨hy, hys⟩
      by_cases hle : strLe r.date y.date = true
      · rw [insertByDate, if_pos hle]
        refine List.pairwise_cons.mpr ⟨?_, hp⟩
        intro b hb
        rcases List.mem_cons.mp hb with hb | hb
        · rw [hb]; exact hle
        · exact strLe_trans _ _ _ hle (hy b hb)
      · rw [insertByDate, if_neg hle]
        refine List.pairwise_cons.mpr ⟨?_, ih hys⟩
        intro b hb
        rcases insertByDate_mem r ys b hb with hb' | hb'
        · rw [hb']; exact strLe_of_not_le _ _ hle
        · exact hy b hb'

theorem sortRecords_sorted (rs : List Record) :
    List.Pairwise (fun a b => strLe a.date b.date = true) (sortRecords rs) := by
  induction rs with
  | nil => simp [sortRecords]
  | cons r rest ih => exact insertByDate_sorted r (sortRecords rest) ih

theorem filter_insertByDate (r : Record) (d : String) :
    ∀ l : List Record,
      (insertByDate r l).filter (fun x => x.date = d)
        = if r.date = d then r :: l.filter (fun x => x.date = d)
          else l.filter (fun x => x.date = d) := by
  intro l
  induction l with
  | nil =>
      by_cases hr : r.date = d <;> simp [insertByDate, hr]
  | cons y ys ih =>
      by_cases hle : strLe r.date y.date = true
      · rw [insertByDate, if_pos hle]
        by_cases hr : r.date = d <;> simp [List.filter_cons, hr]
      · rw [insertByDate, if_neg hle]
        by_cases hr : r.date = d
        · have hyd : ¬ y.date = d := by
            intro hyd
            exact hle (by rw [hr, ← hyd]; exact strLe_refl y.date)
          simp [List.filter_cons, hyd, ih, hr]
        · simp only [List.filter_cons, ih, if_neg hr]

theorem sortRecords_filter_date (rs : List Record) (d : String) :
    (sortRecords rs).filter (fun x => x.date = d)
      = rs.filter (fun x => x.date = d) := by
  induction rs with
  | nil => rfl
  | cons r rest ih =>
      rw [sortRecords, filter_insertByDate, ih]
      by_cases hr : r.date = d <;> simp [List.filter_cons, hr]

/-! ### Replay produces the sorted records in order -/

theorem updatePortfolioCore_record_outputs (st : EngineState)
    (p : PortfolioStatement) :
    (st.updatePortfolioCore p).record_outputs = st.record_outputs := rfl

theorem runStmts_records (ss : List Statement) :
    ∀ st : EngineState, (Engine.runStmts st ss).2 = recordsOf ss := by
  induction ss with
  | nil => intro st; rfl
  | cons s rest ih =>
      intro st
      cases s with
      | record r => simp [Engine.runStmts, recordsOf, List.filterMap_cons, ih st]
      | plan p => simp [Engine.runStmts, recordsOf, List.filterMap_cons, ih st]
      | define d => simp [Engine.runStmts, recordsOf, List.filterMap_cons, ih]
      | portfolio p => simp [Engine.runStmts, recordsOf, List.filterMap_cons, ih]

theorem runStmts_record_outputs (ss : List Statement) :
    ∀ st : EngineState,
      (Engine.runStmts st ss).1.record_outputs = st.record_outputs := by
  induction ss with
  | nil => intro st; rfl
  | cons s rest ih =>
      intro st
      cases s with
      | record r => simp [Engine.runStmts, ih st]
      | plan p => simp [Engine.runStmts, ih st]
      | define d =>
          rw [Engine.runStmts, ih, Engine.evaluateDefineCore,
            upsert_asset_record_outputs]
      | portfolio p =>
          rw [Engine.runStmts, ih, updatePortfolioCore_record_outputs]

theorem replay_record_outputs (rs : List Record) :
    ∀ st : EngineState,
      (Engine.replay st rs).record_outputs.map (fun o => o.program)
        = st.record_outputs.map (fun o => o.program) ++ rs := by
  induction rs with
  | nil => intro st; simp [Engine.replay]
  | cons r rest ih =>
      intro st
      rw [Engine.replay, ih, Engine.evaluateRecordCore,
        calcAssetCore_record_outputs, upsert_asset_record_outputs,
        List.map_append]
      simp [calcAssetCore_program]

/-! ### Aggregation facts -/

theorem from_output_statement (o : RecordOutput) :
    (Snapshot.from_output o).statement = o.program := rfl

theorem lookup_aggStep_getD (m : List (String × List DailySnapshot))
    (o : RecordOutput) (s : String) :
    (lookupA (aggStep m o) s).getD []
      = if o.program.details.get_symbol.display = s
        then addToDaily o ((lookupA m s).getD [])
        else (lookupA m s).getD [] := by
  rw [aggStep, lookupA_insertA]
  by_cases h : o.program.details.get_symbol.display = s <;> simp [h]

theorem lookup_foldl_aggStep (outs : List RecordOutput) :
    ∀ (m : List (String × List DailySnapshot)) (s : String),
      (lookupA (outs.foldl aggStep m) s).getD []
        = List.foldl (fun ds o => addToDaily o ds) ((lookupA m s).getD [])
            (outs.filter fun o => o.program.details.get_symbol.display = s) := by
  induction outs with
  | nil => intro m s; rfl
  | cons o rest ih =>
      intro m s
      rw [List.foldl_cons, ih]
      by_cases h : o.program.details.get_symbol.display = s <;>
        simp [List.filter_cons, h, lookup_aggStep_getD]

theorem addToDaily_dates (o : RecordOutput) :
    ∀ (ds : List DailySnapshot) (g : DailySnapshot),
      g ∈ addToDaily o ds →
      g.date = o.program.date ∨ ∃ g0 ∈ ds, g.date = g0.date := by
  intro ds
  induction ds with
  | nil =>
      intro g hg
      simp [addToDaily] at hg
      subst hg
      exact Or.inl rfl
  | cons g0 gs ih =>
      intro g hg
      by_cases h : g0.date = o.program.date
      · rw [addToDaily, if_pos h] at hg
        rcases List.mem_cons.mp hg with hg | hg
        · exact Or.inr ⟨g0, List.mem_cons_self g0 gs, by rw [hg]⟩
        · exact Or.inr ⟨g, List.mem_cons_of_mem _ hg, rfl⟩
      · rw [addToDaily, if_neg h] at hg
        rcases List.mem_cons.mp hg with hg | hg
        · exact Or.inr ⟨g0, List.mem_cons_self g0 gs, by rw [hg]⟩
        · rcases ih g hg with hd | ⟨g1, hg1, he⟩
          · exact Or.inl hd
          · exact Or.inr ⟨g1, List.mem_cons_of_mem _ hg1, he⟩

theorem addToDaily_pairwise (o : RecordOutput) :
    ∀ ds : List DailySnapshot,
      List.Pairwise (fun a b => strLt a.date b.date) ds →
      (∀ g ∈ ds, strLe g.date o.program.date = true) →
      List.Pairwise (fun a b => strLt a.date b.date) (addToDaily o ds) := by
  intro ds
  induction ds with
  | nil => intro _ _; simp [addToDaily]
  | cons g gs ih =>
      intro hp hle
      rcases List.pairwise_cons.mp hp with ⟨hg, hgs⟩
      by_cases h : g.date = o.program.date
      · rw [addToDaily, if_pos h]
        exact List.pairwise_cons.mpr ⟨fun b hb => hg b hb, hgs⟩
      · rw [addToDaily, if_neg h]
        refine List.pairwise_cons.mpr
          ⟨?_, ih hgs (fun g' hg' => hle g' (List.mem_cons_of_mem _ hg'))⟩
        intro b hb
        rcases addToDaily_dates o gs b hb with hd | ⟨g1, hg1, he⟩
        · rw [strLt, hd]
          exact ⟨hle g (List.mem_cons_self g gs), h⟩
        · rw [strLt, he]
          exact hg g1 hg1

theorem addToDaily_join (o : RecordOutput) :
    ∀ ds : List DailySnapshot,
      List.Pairwise (fun a b => strLt a.date b.date) ds →
      (∀ g ∈ ds, strLe g.date o.program.date = true) →
      joinSnaps (addToDaily o ds) = joinSnaps ds ++ [Snapshot.from_output o] := by
  intro ds
  induction ds with
  | nil => intro _ _; simp [addToDaily, joinSnaps, DailySnapshot.new]
  | cons g gs ih =>
      intro hp hle
      rcases List.pairwise_cons.mp hp with ⟨hg, hgs⟩
      by_cases h : g.date = o.program.date
      · have hnil : gs = [] := by
          cases gs with
          | nil => rfl
          | cons g1 gs' =>
              exfalso
              have h1 : strLt g.date g1.date := hg g1 (List.mem_cons_self g1 gs')
              have h2 : strLe g1.date o.program.date = true :=
                hle g1 (List.mem_cons_of_mem _ (List.mem_cons_self g1 gs'))
              rw [← h] at h2
              exact h1.2 (strLe_antisymm _ _ h1.1 h2)
        subst hnil
        rw [addToDaily, if_pos h]
        simp [joinSnaps]
      · rw [addToDaily, if_neg h]
        rw [joinSnaps, List.map_cons, List.flatten_cons, ← joinSnaps,
          ih hgs (fun g' hg' => hle g' (List.mem_cons_of_mem _ hg'))]
        simp [joinSnaps]

theorem addToDaily_coherent (o : RecordOutput) (s : String)
    (hs : o.program.details.get_symbol.display = s) :
    ∀ ds : List DailySnapshot,
      dailyCoherent s ds → dailyCoherent s (addToDaily o ds) := by
  intro ds
  induction ds with
  | nil =>
      intro _
      intro g hg
      simp [addToDaily] at hg
      subst hg
      refine ⟨hs, ?_⟩
      intro x hx
      simp [DailySnapshot.new] at hx ⊢
      subst hx
      exact ⟨rfl, hs⟩
  | cons g0 gs ih =>
      intro hco
      by_cases h : g0.date = o.program.date
      · rw [addToDaily, if_pos h]
        intro g hg
        rcases List.mem_cons.mp hg with hg | hg
        · subst hg
          have h0 := hco g0 (List.mem_cons_self g0 gs)
          refine ⟨h0.1, ?_⟩
          intro x hx
          simp at hx
          rcases hx with hx | hx
          · exact h0.2 x hx
          · subst hx
            exact ⟨h.symm, hs⟩
        · exact hco g (List.mem_cons_of_mem _ hg)
      · rw [addToDaily, if_neg h]
        intro g hg
        rcases List.mem_cons.mp hg with hg | hg
        · subst hg
          exact hco g (List.mem_cons_self g gs)
        · exact ih (fun g' hg' => hco g' (List.mem_cons_of_mem _ hg')) g hg

theorem foldl_addToDaily_spec (s : String) :
    ∀ (l : List RecordOutput) (ds : List DailySnapshot),
      List.Pairwise (fun a b => strLe a.program.date b.program.date = true) l →
      (∀ o ∈ l, o.program.details.get_symbol.display = s) →
      List.Pairwise (fun a b => strLt a.date b.date) ds →
      dailyCoherent s ds →
      (∀ g ∈ ds, ∀ o ∈ l, strLe g.date o.program.date = true) →
      List.Pairwise (fun a b => strLt a.date b.date)
          (List.foldl (fun acc o => addToDaily o acc) ds l)
        ∧ dailyCoherent s (List.foldl (fun acc o => addToDaily o acc) ds l)
        ∧ joinSnaps (List.foldl (fun acc o => addToDaily o acc) ds l)
            = joinSnaps ds ++ l.map Snapshot.from_output := by
  intro l
  induction l with
  | nil =>
      intro ds _ _ hp hco _
      exact ⟨hp, hco, by simp⟩
  | cons o rest ih =>
      intro ds hl hsym hp hco hbound
      rcases List.pairwise_cons.mp hl with ⟨ho, hrest⟩
      rw [List.foldl_cons]
      have hle : ∀ g ∈ ds, strLe g.date o.program.date = true :=
        fun g hg => hbound g hg o (List.mem_cons_self o rest)
      have h1 := addToDaily_pairwise o ds hp hle
      have h2 := addToDaily_coherent o s (hsym o (List.mem_cons_self o rest)) ds hco
      have h3 := addToDaily_join o ds hp hle
      have hbound' : ∀ g ∈ addToDaily o ds, ∀ o' ∈ rest,
          strLe g.date o'.program.date = true := by
        intro g hg o' ho'
        rcases addToDaily_dates o ds g hg with hd | ⟨g0, hg0, he⟩
        · rw [hd]; exact ho o' ho'
        · rw [he]; exact hbound g0 hg0 o' (List.mem_cons_of_mem _ ho')
      obtain ⟨p1, p2, p3⟩ := ih (addToDaily o ds) hrest
        (fun o' ho' => hsym o' (List.mem_cons_of_mem _ ho')) h1 h2 hbound'
      refine ⟨p1, p2, ?_⟩
      rw [p3, h3]
      simp

theorem map_program_filter_sym (outs : List RecordOutput) (s : String) :
    (outs.filter fun o => o.program.details.get_symbol.display = s).map
        (fun o => o.program)
      = (outs.map fun o => o.program).filter
          (fun r => r.details.get_symbol.display = s) := by
  induction outs with
  | nil => rfl
  | cons o rest ih =>
      by_cases h : o.program.details.get_symbol.display = s <;>
        simp [List.filter_cons, h, ih]

/-- C2 — for every program and symbol, evaluation succeeds and in the
resulting report the symbol's daily snapshots are strictly ascending by date;
every group and every snapshot inside it carry the symbol and the group's
date; the snapshots, flattened in order, are exactly the symbol's records in
stably-date-sorted order; and the date sort is stable: for every date, the
records of that date appear in the sorted list exactly as they appear in the
input program. -/
theorem C2_chronological_snapshots (program : Program) (s : String) :
    ∃ rep : AnalysisReport, Engine.evaluate program = Except.ok rep
      ∧ List.Pairwise (fun a b => strLt a.date b.date)
          ((lookupA rep.daily_snapshot s).getD [])
      ∧ dailyCoherent s ((lookupA rep.daily_snapshot s).getD [])
      ∧ (joinSnaps ((lookupA rep.daily_snapshot s).getD [])).map
            (fun x => x.statement)
          = (sortRecords (recordsOf program.statements)).filter
              (fun r => r.details.get_symbol.display = s)
      ∧ (∀ d : String,
          (sortRecords (recordsOf program.statements)).filter (fun x => x.date = d)
            = (recordsOf program.statements).filter (fun x => x.date = d)) := by
  refine ⟨Engine.evaluateReport program, evaluate_eq program, ?_⟩
  have hrecs : (Engine.runStmts EngineState.new program.statements).2
      = recordsOf program.statements := runStmts_records program.statements _
  have hout0 : (Engine.runStmts EngineState.new program.statements).1.record_outputs
      = [] := runStmts_record_outputs program.statements _
  set st0 := (Engine.runStmts EngineState.new program.statements).1 with hst0
  set sorted := sortRecords (recordsOf program.statements) with hsorted
  have hmap : (Engine.replay st0 sorted).record_outputs.map (fun o => o.program)
      = sorted := by
    rw [replay_record_outputs, hout0]
    simp
  set outs := (Engine.replay st0 sorted).record_outputs with houts
  have hds : (lookupA (Engine.evaluateReport program).daily_snapshot s).getD []
      = List.foldl (fun ds o => addToDaily o ds) []
          (outs.filter fun o => o.program.details.get_symbol.display = s) := by
    have : (Engine.evaluateReport program).daily_snapshot = aggregate outs := by
      simp only [Engine.evaluateReport, buildReport, hrecs]
    rw [this, aggregate, lookup_foldl_aggStep]
    rfl
  have hpair : List.Pairwise
      (fun a b : RecordOutput => strLe a.program.date b.program.date = true) outs := by
    have hs := sortRecords_sorted (recordsOf program.statements)
    rw [← hsorted, ← hmap] at hs
    exact (List.pairwise_map.mp hs)
  have hfil : List.Pairwise
      (fun a b : RecordOutput => strLe a.program.date b.program.date = true)
      (outs.filter fun o => o.program.details.get_symbol.display = s) :=
    hpair.sublist (List.filter_sublist outs)
  have hsym : ∀ o ∈ (outs.filter fun o => o.program.details.get_symbol.display = s),
      o.program.details.get_symbol.display = s := by
    intro o ho
    have := List.of_mem_filter ho
    simpa using this
  obtain ⟨p1, p2, p3⟩ := foldl_addToDaily_spec s
    (outs.filter fun o => o.program.details.get_symbol.display = s) []
    hfil hsym (by simp) (by intro g hg; cases hg) (by intro g hg; cases hg)
  rw [hds]
  refine ⟨p1, p2, ?_, fun d => sortRecords_filter_date _ d⟩
  rw [p3]
  simp only [joinSnaps, List.map_nil, List.flatten_nil, List.nil_append]
  rw [List.map_map]
  have hcomp : (fun x : RecordOutput => Snapshot.statement (Snapshot.from_output x))
      = fun x : RecordOutput => x.program := by
    funext x
    rfl
  rw [show ((fun x : Snapshot => x.statement) ∘ Snapshot.from_output)
      = fun o : RecordOutput => o.program from hcomp]
  rw [map_program_filter_sym, hmap]

end Cashly
